import Mathlib

/-!
# Verification of the streak calculator (`calculate_streak`, src/app.py lines 42-112)

This file gives a shallow embedding of the habit tracker's streak-calculation
routine and proves / refutes the specified properties about it.

Modelling conventions:
* A calendar date is represented by its proleptic Gregorian ordinal
  (`date.toordinal()` in Python), as an `Int`.  All date arithmetic performed by
  the source (`timedelta(days=1)` steps, `(day - prev_day).days`, comparisons)
  factors exactly through this ordinal representation.
* `date.today()` — read internally by the source at lines 87, 100 and 103 — is
  modelled as an explicit extra argument `today : Int` (the ordinal of the value
  the clock returns during the call).
* The Python `ValueError` raised by `datetime.strptime` on a malformed date
  string (line 55), and the `IndexError` raised by `.split()[0]` on a string
  with no tokens, are modelled by the `Except` error `StreakError.invalidEntryDate`
  carrying the offending string.
* An important `defaultdict` subtlety: `day_status = defaultdict(lambda: True)`
  initially receives keys only for failure entries (line 60), but the lookups
  `day_status[day]` in the longest-streak pass (line 72) *insert* every date of
  `sorted_days` into the dictionary.  Hence by the time the current-streak scan
  runs, the membership test `day_to_check in day_status` (line 91) is equivalent
  to membership in the set of all entry dates, and `day_status[d]` is `False`
  exactly when some entry for `d` has `success == 0`.  The embedding uses that
  (provably equivalent) characterisation directly.
-/

/-- One habit entry as consumed by `calculate_streak`: the `date` string column
and the `success` column (an integer; the dashboard passes `int(e['success'])`).
The `mood` and `journal` columns are never read by the routine and are omitted. -/
structure Entry where
  date : String
  success : Int
deriving DecidableEq

/-- The single failure mode of the routine: a malformed date string in an entry.
Models the uncaught Python exception propagating out of line 55
(`ValueError` from `datetime.strptime`, or `IndexError` from `.split()[0]`
when the string has no whitespace-separated token). -/
inductive StreakError where
  | invalidEntryDate : String → StreakError
deriving DecidableEq

/-- ASCII whitespace recognised by Python's `str.split()` with no argument. -/
def isPySpace (c : Char) : Bool :=
  c = ' ' || c = '\t' || c = '\n' || c = '\r' || c = Char.ofNat 11 || c = Char.ofNat 12

/-- Models `s.split()[0]`: the first maximal run of non-whitespace characters;
`none` when the string contains no token (Python would raise `IndexError`). -/
def firstToken (s : String) : Option (List Char) :=
  let tok := (s.toList.dropWhile isPySpace).takeWhile (fun c => !isPySpace c)
  if tok.isEmpty then none else some tok

/-- Numeric value of a decimal digit character. -/
def digitVal (c : Char) : Nat := c.toNat - 48

/-- All characters are decimal digits (and the group is treated as a number). -/
def allDigits (cs : List Char) : Bool := cs.all Char.isDigit

/-- The natural number denoted by a list of decimal digit characters. -/
def digitsToNat (cs : List Char) : Nat := cs.foldl (fun a c => 10 * a + digitVal c) 0

/-- Gregorian leap-year test, as in Python's `calendar`/`datetime`. -/
def isLeapYear (y : Nat) : Bool := y % 4 = 0 && (y % 100 ≠ 0 || y % 400 = 0)

/-- Number of days in month `m` of year `y` (Python `calendar.monthrange`). -/
def daysInMonth (y m : Nat) : Nat :=
  if m = 2 then (if isLeapYear y then 29 else 28)
  else if m = 4 || m = 6 || m = 9 || m = 11 then 30
  else 31

/-- Days in year `y` that precede month `m`. -/
def daysBeforeMonth (y m : Nat) : Nat :=
  (List.range' 1 (m - 1)).foldl (fun a k => a + daysInMonth y k) 0

/-- `date(y, m, d).toordinal()`: days since 0000-12-31 in the proleptic
Gregorian calendar (so 0001-01-01 has ordinal 1). -/
def toOrdinal (y m d : Nat) : Int :=
  ((365 * (y - 1) + (y - 1) / 4 - (y - 1) / 100 + (y - 1) / 400
    + daysBeforeMonth y m + d : Nat) : Int)

/-- Splits a candidate token at `'-'` and checks it against the regex CPython
compiles for the format `"%Y-%m-%d"`:
`(?P<Y>\d\d\d\d)\-(?P<m>1[0-2]|0[1-9]|[1-9])\-(?P<d>3[01]|[12]\d|0[1-9]|[1-9])`,
anchored at both ends (trailing characters are "unconverted data" and raise).
Net effect: exactly three dash-separated all-digit groups, the year exactly
4 digits, month and day 1 or 2 digits with values in 1..12 and 1..31. -/
def parseYmdGroups (tok : List Char) : Option (Nat × Nat × Nat) :=
  match tok.splitOn '-' with
  | [ys, ms, ds] =>
    if ys.length = 4 && allDigits ys
        && (1 ≤ ms.length && ms.length ≤ 2) && allDigits ms
        && (1 ≤ ds.length && ds.length ≤ 2) && allDigits ds then
      let y := digitsToNat ys
      let m := digitsToNat ms
      let d := digitsToNat ds
      if 1 ≤ m && m ≤ 12 && 1 ≤ d && d ≤ 31 then some (y, m, d) else none
    else none
  | _ => none

/-- The calendar validation performed by the `datetime.date` constructor:
year at least `MINYEAR = 1` (4 digits already cap it at 9999) and the day
within the month's length. -/
def validDate (y m d : Nat) : Bool := 1 ≤ y && d ≤ daysInMonth y m

/-- Models line 55, `datetime.strptime(e['date'].split()[0], "%Y-%m-%d").date()`,
returning the date's ordinal, or `none` where Python raises. -/
def parseEntryDate (s : String) : Option Int := do
  let tok ← firstToken s
  let (y, m, d) ← parseYmdGroups tok
  if validDate y m d then pure (toOrdinal y m d) else none

/-- Models the entry loop at lines 53-60: each entry's date string is parsed in
order and paired with its `success` value; the first malformed date aborts the
whole computation with the corresponding exception. -/
def parsedEntries : List Entry → Except StreakError (List (Int × Int))
  | [] => .ok []
  | e :: rest =>
    match parseEntryDate e.date with
    | none => .error (.invalidEntryDate e.date)
    | some d =>
      match parsedEntries rest with
      | .error err => .error err
      | .ok pes => .ok ((d, e.success) :: pes)

/-- The dates of all entries (`all_entry_dates`, lines 51 and 56, as a list
with multiplicity; only its set of members is ever used). -/
def recordedDates (pes : List (Int × Int)) : List Int := pes.map Prod.fst

/-- The `day_status` mapping (lines 50 and 58-60): every date defaults to
success (`True`) and is downgraded to failure exactly when some entry for it
has `success == 0`. -/
def dayStatus (pes : List (Int × Int)) (d : Int) : Bool :=
  ! pes.any (fun q => decide (q.1 = d) && decide (q.2 = 0))

/-- `sorted(all_entry_dates)` (line 62): the distinct entry dates in ascending
order.  (Python's sort is modelled by insertion sort — on a duplicate-free list
every correct sort produces the same list.) -/
def sortedDays (pes : List (Int × Int)) : List Int :=
  List.insertionSort (· ≤ ·) ((recordedDates pes).dedup)

/-- One iteration of the longest-streak loop body (lines 71-83) on the state
`(longest_streak, current_longest, prev_day)`. -/
def longestStep (status : Int → Bool) (st : Nat × Nat × Option Int) (day : Int) :
    Nat × Nat × Option Int :=
  if status day then
    let consec := match st.2.2 with
      | some p => decide (day - p = 1)
      | none => false
    let cl := if consec then st.2.1 + 1 else 1
    (max st.1 cl, cl, some day)
  else
    (st.1, 0, some day)

/-- The longest-streak pass (lines 66-83): fold the loop body over the sorted
distinct dates starting from `longest_streak = 0`, `current_longest = 0`,
`prev_day = None`, and return the final `longest_streak`. -/
def longestPass (status : Int → Bool) (days : List Int) : Nat :=
  (days.foldl (longestStep status) (0, 0, none)).1

/-- The `sorted_days and day_to_check <= sorted_days[0]` stop test (line 107);
`first?` is `sorted_days[0]` when `sorted_days` is nonempty. -/
def stopAtFirst (first? : Option Int) (day : Int) : Bool :=
  match first? with
  | some f => decide (day ≤ f)
  | none => false

/-- The backward current-streak scan (lines 86-110) as a fuel-indexed recursion:
`fuel` models the remaining iterations of `for _ in range(365)`, `day` is
`day_to_check` and `acc` is `current_streak`.  Branches, in source order:
a recorded success increments the counter; a recorded failure zeroes the
counter and breaks; an unrecorded day breaks when it is `<` or `==` today
(both lines 100-104 `break`); otherwise the earliest-date test (line 107) may
break, and the scan moves one day back (line 110). -/
def currentScan (recorded status : Int → Bool) (first? : Option Int) (today : Int) :
    Nat → Int → Nat → Nat
  | 0, _, acc => acc
  | fuel + 1, day, acc =>
    if recorded day then
      if status day then
        if stopAtFirst first? day then acc + 1
        else currentScan recorded status first? today fuel (day - 1) (acc + 1)
      else 0
    else
      if day < today then acc
      else if day = today then acc
      else
        if stopAtFirst first? day then acc
        else currentScan recorded status first? today fuel (day - 1) acc

/-- Both passes over an already-parsed entry list (lines 62-112), returning
`(current_streak, longest_streak)` exactly as line 112 does. -/
def streaksOfParsed (pes : List (Int × Int)) (today : Int) : Nat × Nat :=
  let status := dayStatus pes
  let days := sortedDays pes
  let longest := longestPass status days
  let recorded := fun d => decide (d ∈ recordedDates pes)
  let current := currentScan recorded status days.head? today 365 today 0
  (current, longest)

/-- The whole routine `calculate_streak` (lines 42-112).  `entries` is the
input list; `today` is the ordinal of the value `date.today()` returns during
the call (the source reads the clock internally; the dashboard caller never
passes it).  The early returns at lines 45-46 and 63-64 are kept verbatim. -/
def calculate_streak (entries : List Entry) (today : Int) :
    Except StreakError (Nat × Nat) :=
  if entries.isEmpty then .ok (0, 0)
  else
    match parsedEntries entries with
    | .error err => .error err
    | .ok pes =>
      if (sortedDays pes).isEmpty then .ok (0, 0)
      else .ok (streaksOfParsed pes today)

/-! ## Concrete test-input builders

These definitions only construct concrete inputs (date strings and entry
lists) fed to `calculate_streak` in witnesses and counterexamples; they model
no part of the source. -/

/-- The character of a decimal digit. -/
def digitChar (n : Nat) : Char := Char.ofNat (48 + n)

/-- Two-digit zero-padded decimal string. -/
def twoDigits (n : Nat) : String := ⟨[digitChar (n / 10 % 10), digitChar (n % 10)]⟩

/-- Four-digit zero-padded decimal string. -/
def fourDigits (n : Nat) : String :=
  ⟨[digitChar (n / 1000 % 10), digitChar (n / 100 % 10),
    digitChar (n / 10 % 10), digitChar (n % 10)]⟩

/-- The `"YYYY-MM-DD"` string of a calendar date. -/
def mkDateString (y m d : Nat) : String :=
  fourDigits y ++ "-" ++ twoDigits m ++ "-" ++ twoDigits d

/-- One success entry per day of month `m` of year `y`. -/
def monthEntries (y m : Nat) : List Entry :=
  (List.range (daysInMonth y m)).map fun d => ⟨mkDateString y m (d + 1), 1⟩

/-- 366 consecutive daily success entries, from 2024-01-02 through 2025-01-01
(2024 is a leap year): an unbroken success run of length 366 ending on
2025-01-01, exceeding the 365-iteration lookback cap by one day. -/
def entries366 : List Entry :=
  (((List.range 12).map fun m => monthEntries 2024 (m + 1)).flatten).drop 1
    ++ [⟨mkDateString 2025 1 1, 1⟩]

/-- The parsed form of `entries366`: the ordinals of 2024-01-02 … 2025-01-01
in ascending order, each with success value 1. -/
def pes366 : List (Int × Int) :=
  (List.range 366).map fun i => (toOrdinal 2025 1 1 - ((365 - i : Nat) : Int), 1)

/-! ## Helper lemmas -/

/-- `parsedEntries` reports an error exactly when some entry's date string is
unparseable. -/
theorem parsedEntries_error_iff (entries : List Entry) :
    (∃ e ∈ entries, parseEntryDate e.date = none) ↔
      ∃ s, parsedEntries entries = .error (.invalidEntryDate s) := by
  induction entries with
  | nil => simp [parsedEntries]
  | cons e rest ih =>
    simp only [parsedEntries]
    cases hpe : parseEntryDate e.date with
    | none =>
      constructor
      · intro _; exact ⟨e.date, rfl⟩
      · intro _; exact ⟨e, List.mem_cons_self e rest, hpe⟩
    | some d =>
      cases hrest : parsedEntries rest with
      | error err =>
        obtain ⟨s⟩ := err
        constructor
        · intro _; exact ⟨s, rfl⟩
        · intro _
          have : ∃ s, parsedEntries rest = .error (.invalidEntryDate s) := ⟨s, hrest⟩
          obtain ⟨e', he', hbad⟩ := ih.mpr this
          exact ⟨e', List.mem_cons_of_mem e he', hbad⟩
      | ok pes =>
        constructor
        · rintro ⟨e', he', hbad⟩
          rcases List.mem_cons.mp he' with h | h
          · subst h; rw [hpe] at hbad; cases hbad
          · obtain ⟨s, hs⟩ := ih.mp ⟨e', h, hbad⟩
            rw [hs] at hrest; cases hrest
        · rintro ⟨s, hs⟩; cases hs

/-- The backward scan never returns more than `acc + fuel`. -/
theorem currentScan_le (recorded status : Int → Bool) (first? : Option Int)
    (today : Int) :
    ∀ (fuel : Nat) (day : Int) (acc : Nat),
      currentScan recorded status first? today fuel day acc ≤ acc + fuel := by
  intro fuel
  induction fuel with
  | zero => intro day acc; simp [currentScan]
  | succ n ih =>
    intro day acc
    simp only [currentScan]
    split
    · split
      · split
        · omega
        · have := ih (day - 1) (acc + 1); omega
      · omega
    · split
      · omega
      · split
        · omega
        · split
          · omega
          · have := ih (day - 1) acc; omega

/-! ## Claims -/

/-- C1: the spec scenario — entries on 2025-01-01 (success), 2025-01-02
(success), 2025-01-03 (failure), 2025-01-04 (success), today = 2025-01-04.
The claim expects `(current_streak, longest_streak) = (1, 2)`; the code
returns `(0, 2)` because line 95 zeroes `current_streak` before the failure
`break`, discarding the success already counted for 2025-01-04. -/
theorem c1_failure_scan_eval :
    calculate_streak
        [⟨"2025-01-01", 1⟩, ⟨"2025-01-02", 1⟩, ⟨"2025-01-03", 0⟩, ⟨"2025-01-04", 1⟩]
        (toOrdinal 2025 1 4) = .ok (0, 2) := rfl

/-- C2: a two-day success run ending yesterday, nothing logged for today
(today = 2025-01-04).  The claim (and the source's own comment at lines
102-103, "don't count it, but don't break either") expects current streak 2;
the code `break`s at line 104 and returns current streak 0. -/
theorem c2_missing_today_eval :
    calculate_streak [⟨"2025-01-02", 1⟩, ⟨"2025-01-03", 1⟩] (toOrdinal 2025 1 4) =
      .ok (0, 2) := rfl

/-- C3 (counterexample): `calculate_streak` takes only `entries`; `today` is
read internally from the system clock (`date.today()`, lines 87, 100, 103).
With the clock reading modelled as an explicit input, identical `entries` give
different results under different clock values, so the output is not a
function of the caller-supplied arguments alone, refuting the claim that
`today` is an explicit caller-supplied parameter and the clock is not read
internally. -/
theorem c3_counterexample :
    calculate_streak [⟨"2025-01-01", 1⟩] (toOrdinal 2025 1 1) ≠
      calculate_streak [⟨"2025-01-01", 1⟩] (toOrdinal 2025 1 2) := by
  intro hcontra
  have h1 : calculate_streak [⟨"2025-01-01", 1⟩] (toOrdinal 2025 1 1) =
      .ok (1, 1) := rfl
  have h2 : calculate_streak [⟨"2025-01-01", 1⟩] (toOrdinal 2025 1 2) =
      .ok (0, 1) := rfl
  rw [h1, h2] at hcontra
  injection hcontra with h'
  injection h' with ha hb
  exact absurd ha (by decide)

/-- C3 (amended): once the internally read clock value is made an explicit
input of the model, the computation is pure and deterministic — two
invocations with identical entries and the same clock reading produce
identical outputs, with no hidden state. -/
theorem c3_deterministic (entries : List Entry) (today : Int)
    (r₁ r₂ : Except StreakError (Nat × Nat))
    (h₁ : calculate_streak entries today = r₁)
    (h₂ : calculate_streak entries today = r₂) : r₁ = r₂ :=
  h₁.symm.trans h₂

/-- Witness for C3: both hypotheses are satisfied at a concrete input. -/
theorem c3_deterministic_witness :
    (Except.ok ((1 : Nat), (1 : Nat)) : Except StreakError (Nat × Nat)) =
      Except.ok (1, 1) :=
  c3_deterministic [⟨"2025-01-01", 1⟩] (toOrdinal 2025 1 1) _ _ rfl rfl

/-- C4: for every `today`, the empty entry list yields `(0, 0)` (lines 45-46)
and no error. -/
theorem c4_empty_entries (today : Int) :
    calculate_streak [] today = .ok (0, 0) := rfl

/-- C5: a date's resolved status is failure exactly when some entry for that
date has `success = 0` (and success otherwise, the `defaultdict` default), and
the resolution is invariant under any permutation of the entry sequence. -/
theorem c5_duplicate_date_resolution (pes pes' : List (Int × Int)) (d : Int)
    (hperm : pes.Perm pes') :
    (dayStatus pes d = false ↔ ∃ q ∈ pes, q.1 = d ∧ q.2 = 0) ∧
      dayStatus pes d = dayStatus pes' d := by
  constructor
  · simp [dayStatus, List.any_eq_true]
  · simp only [dayStatus]
    have h : pes.any (fun q => decide (q.1 = d) && decide (q.2 = 0)) =
        pes'.any (fun q => decide (q.1 = d) && decide (q.2 = 0)) := by
      apply Bool.eq_iff_iff.mpr
      simp only [List.any_eq_true]
      constructor
      · rintro ⟨x, hx, hf⟩; exact ⟨x, hperm.mem_iff.mp hx, hf⟩
      · rintro ⟨x, hx, hf⟩; exact ⟨x, hperm.mem_iff.mpr hx, hf⟩
    rw [h]

/-- Witness for C5: duplicate entries for date 1, one success and one failure,
in both orders. -/
theorem c5_witness :
    (dayStatus [(1, 1), (1, 0)] 1 = false ↔
        ∃ q ∈ [((1 : Int), (1 : Int)), (1, 0)], q.1 = 1 ∧ q.2 = 0) ∧
      dayStatus [(1, 1), (1, 0)] 1 = dayStatus [(1, 0), (1, 1)] 1 :=
  c5_duplicate_date_resolution _ _ 1 (List.Perm.swap (1, 0) (1, 1) [])

/-- C7: in the longest-streak pass, when the date being processed is not
exactly one day after the previous recorded date (a gap), the running counter
is reset to 1 on a success and to 0 on a failure — independently of its
previous value, so a streak count never carries across a gap
(lines 74-81). -/
theorem c7_gap_resets (status : Int → Bool) (longest cl : Nat) (p day : Int)
    (hgap : day - p ≠ 1) :
    (longestStep status (longest, cl, some p) day).2.1 =
      if status day then 1 else 0 := by
  have hd : decide (day - p = 1) = false := decide_eq_false hgap
  by_cases hs : status day
  · simp [longestStep, hs, hd]
  · simp [longestStep, hs]

/-- Witness for C7: a gap of five days before day 5 with an arbitrary running
counter of 9. -/
theorem c7_witness :
    (longestStep (fun _ => true) (7, 9, some 0) 5).2.1 =
      if (fun _ : Int => true) 5 then 1 else 0 :=
  c7_gap_resets (fun _ => true) 7 9 0 5 (by decide)

/-- Any normal return of `calculate_streak` has `current_streak ≤ 365`: the
backward scan runs on 365 units of fuel. -/
theorem calculate_streak_current_le365 (entries : List Entry) (today : Int)
    (c l : Nat) (h : calculate_streak entries today = .ok (c, l)) : c ≤ 365 := by
  unfold calculate_streak at h
  split at h
  · injection h with h'; injection h' with hc hl; omega
  · split at h
    · cases h
    · rename_i pes heq
      split at h
      · injection h with h'; injection h' with hc hl; omega
      · injection h with h'
        have h1 : (streaksOfParsed pes today).1 = c := by rw [h']
        rw [streaksOfParsed] at h1
        simp only at h1
        rw [← h1]
        exact currentScan_le _ _ _ _ 365 today 0

/-- C8: the backward scan performs at most 365 iterations — it is structurally
bounded by the fuel literal 365 modelling `for _ in range(365)` (line 90), so
it always terminates — and whenever `calculate_streak` returns normally the
current streak is at most 365, regardless of how far back the recorded
history extends. -/
theorem c8_current_streak_bounded (entries : List Entry) (today : Int)
    (c l : Nat) (h : calculate_streak entries today = .ok (c, l)) : c ≤ 365 :=
  calculate_streak_current_le365 entries today c l h

/-- Witness for C8: a concrete normal return with current streak 1. -/
theorem c8_witness : (1 : Nat) ≤ 365 :=
  c8_current_streak_bounded [⟨"2025-01-01", 1⟩] (toOrdinal 2025 1 1) 1 1 rfl

/-- `calculate_streak` propagates exactly the parse errors of its entry loop. -/
theorem calculate_streak_error_iff (entries : List Entry) (today : Int)
    (err : StreakError) :
    calculate_streak entries today = .error err ↔
      parsedEntries entries = .error err := by
  unfold calculate_streak
  split
  · rename_i hemp
    have he : entries = [] := by
      cases entries with
      | nil => rfl
      | cons a l => simp [List.isEmpty] at hemp
    subst he
    constructor
    · intro h; cases h
    · intro h; simp [parsedEntries] at h
  · split
    · rename_i err' herr
      rw [herr]
      constructor
      · intro h; injection h with h1; rw [h1]
      · intro h; injection h with h1; rw [h1]
    · rename_i pes hok
      rw [hok]
      constructor
      · intro h; split at h <;> cases h
      · intro h; cases h

/-- C9: `calculate_streak` fails — with the distinguishable invalid-entry-date
error — exactly when some entry's date string is unparseable; for well-formed
inputs no error is raised. -/
theorem c9_invalid_entry_date (entries : List Entry) (today : Int) :
    (∃ e ∈ entries, parseEntryDate e.date = none) ↔
      ∃ s, calculate_streak entries today = .error (.invalidEntryDate s) := by
  rw [parsedEntries_error_iff]
  constructor
  · rintro ⟨s, hs⟩; exact ⟨s, (calculate_streak_error_iff entries today _).mpr hs⟩
  · rintro ⟨s, hs⟩; exact ⟨s, (calculate_streak_error_iff entries today _).mp hs⟩

/-! ## The longest pass dominates the backward scan (infrastructure for C10) -/

/-- One loop iteration never decreases the `longest_streak` accumulator. -/
theorem longestStep_fst_le (status : Int → Bool) (st : Nat × Nat × Option Int)
    (day : Int) : st.1 ≤ (longestStep status st day).1 := by
  simp only [longestStep]
  split
  · exact le_max_left _ _
  · exact le_refl _

/-- The whole fold never decreases the `longest_streak` accumulator. -/
theorem longestFold_fst_le (status : Int → Bool) :
    ∀ (l : List Int) (st : Nat × Nat × Option Int),
      st.1 ≤ (l.foldl (longestStep status) st).1 := by
  intro l
  induction l with
  | nil => intro st; exact le_refl _
  | cons x rest ih =>
    intro st
    rw [List.foldl_cons]
    exact le_trans (longestStep_fst_le status st x) (ih (longestStep status st x))

/-- Folding the loop body over a sorted list whose elements all exceed `p` and
which contains the `m` consecutive success days `p+1, …, p+m` drives the
running counter from `cl` up to at least `cl + m`; the final longest streak is
at least that. -/
theorem longestFold_chain (status : Int → Bool) :
    ∀ (m : Nat) (l : List Int) (p : Int) (lo cl : Nat),
      1 ≤ m →
      l.Sorted (· < ·) →
      (∀ x ∈ l, p < x) →
      (∀ i : Nat, i < m → (p + 1 + i) ∈ l ∧ status (p + 1 + i) = true) →
      cl + m ≤ (l.foldl (longestStep status) (lo, cl, some p)).1 := by
  intro m
  induction m with
  | zero => intro l p lo cl h1; omega
  | succ m ih =>
    intro l p lo cl _ hsort hgt hblock
    have hp1 : (p + 1) ∈ l := by
      have := (hblock 0 (by omega)).1
      simpa using this
    obtain ⟨y, t, rfl⟩ : ∃ y t, l = y :: t := by
      cases l with
      | nil => cases hp1
      | cons y t => exact ⟨y, t, rfl⟩
    have hy : y = p + 1 := by
      rcases List.mem_cons.mp hp1 with h | h
      · exact h.symm
      · have h1 : y < p + 1 := List.rel_of_sorted_cons hsort _ h
        have h2 : p < y := hgt y (List.mem_cons_self _ _)
        omega
    subst hy
    have hstat : status (p + 1) = true := by
      have := (hblock 0 (by omega)).2
      simpa using this
    have hstep : longestStep status (lo, cl, some p) (p + 1) =
        (max lo (cl + 1), cl + 1, some (p + 1)) := by
      simp [longestStep, hstat]
    rw [List.foldl_cons, hstep]
    by_cases hm : m = 0
    · subst hm
      calc cl + 1 ≤ max lo (cl + 1) := le_max_right _ _
        _ ≤ _ := longestFold_fst_le status t (max lo (cl + 1), cl + 1, some (p + 1))
    · have htail : ∀ i : Nat, i < m →
          ((p + 1) + 1 + i) ∈ t ∧ status ((p + 1) + 1 + i) = true := by
        intro i hi
        have hb := hblock (i + 1) (by omega)
        have harith : p + 1 + (↑(i + 1) : Int) = (p + 1) + 1 + ↑i := by
          push_cast; ring
        rw [harith] at hb
        refine ⟨?_, hb.2⟩
        rcases List.mem_cons.mp hb.1 with h | h
        · exfalso; omega
        · exact h
      have hrec := ih t (p + 1) (max lo (cl + 1)) (cl + 1) (by omega)
        hsort.of_cons (List.rel_of_sorted_cons hsort) htail
      omega

/-- If the sorted distinct date list contains the `k` consecutive success days
`d - k + 1, …, d`, the longest-streak fold returns at least `k` from any
starting state. -/
theorem longestFold_ge (status : Int → Bool) :
    ∀ (l : List Int), l.Sorted (· < ·) →
      ∀ (d : Int) (k : Nat), 1 ≤ k →
      (∀ i : Nat, i < k → (d - i) ∈ l ∧ status (d - i) = true) →
      ∀ st : Nat × Nat × Option Int, k ≤ (l.foldl (longestStep status) st).1 := by
  intro l
  induction l with
  | nil =>
    intro _ d k hk hblock st
    exact absurd (hblock 0 (by omega)).1 (List.not_mem_nil _)
  | cons x rest ih =>
    intro hsort d k hk hblock st
    by_cases hx : ∃ i : Nat, i < k ∧ d - i = x
    · obtain ⟨j, hj, hjx⟩ := hx
      have hxval : x = d - (↑(k - 1) : Int) := by
        rcases Nat.lt_or_ge j (k - 1) with hjlt | hjge
        · exfalso
          have hmem := (hblock (k - 1) (by omega)).1
          rcases List.mem_cons.mp hmem with h | h
          · omega
          · have hlt : x < d - (↑(k - 1) : Int) :=
              List.rel_of_sorted_cons hsort _ h
            omega
        · omega
      have hstat : status x = true := by
        rw [hxval]
        exact (hblock (k - 1) (by omega)).2
      obtain ⟨lo, cl, prev⟩ := st
      have hcl' : ∃ cl', longestStep status (lo, cl, prev) x =
          (max lo cl', cl', some x) ∧ 1 ≤ cl' := by
        cases prev with
        | none => exact ⟨1, by simp [longestStep, hstat], by omega⟩
        | some p =>
          by_cases hc : x - p = 1
          · exact ⟨cl + 1, by simp [longestStep, hstat, hc], by omega⟩
          · exact ⟨1, by simp [longestStep, hstat, hc], by omega⟩
      obtain ⟨cl', hstep, hcl1⟩ := hcl'
      rw [List.foldl_cons, hstep]
      by_cases hk1 : k = 1
      · subst hk1
        calc (1 : Nat) ≤ cl' := hcl1
          _ ≤ max lo cl' := le_max_right _ _
          _ ≤ _ := longestFold_fst_le status rest (max lo cl', cl', some x)
      · have hblock' : ∀ i : Nat, i < k - 1 →
            (x + 1 + ↑i) ∈ rest ∧ status (x + 1 + ↑i) = true := by
          intro i hi
          have hb := hblock (k - 2 - i) (by omega)
          have heq : d - (↑(k - 2 - i) : Int) = x + 1 + ↑i := by omega
          rw [heq] at hb
          refine ⟨?_, hb.2⟩
          rcases List.mem_cons.mp hb.1 with h | h
          · exfalso; omega
          · exact h
        have hchain := longestFold_chain status (k - 1) rest x (max lo cl') cl'
          (by omega) hsort.of_cons (List.rel_of_sorted_cons hsort) hblock'
        omega
    · have hblock' : ∀ i : Nat, i < k →
          (d - ↑i) ∈ rest ∧ status (d - ↑i) = true := by
        intro i hi
        have hb := hblock i hi
        refine ⟨?_, hb.2⟩
        rcases List.mem_cons.mp hb.1 with h | h
        · exact absurd ⟨i, hi, h⟩ hx
        · exact h
      exact ih hsort.of_cons d k hk hblock' (longestStep status st x)

/-- What the backward scan returns is either `0` (a recorded failure stopped
it) or `acc` plus a count `k` of recorded consecutive success days
`day, day - 1, …, day - k + 1`. -/
theorem currentScan_spec (recorded status : Int → Bool) (first? : Option Int)
    (today : Int) :
    ∀ (fuel : Nat) (day : Int) (acc : Nat), day ≤ today →
      currentScan recorded status first? today fuel day acc = 0 ∨
      ∃ k : Nat, currentScan recorded status first? today fuel day acc = acc + k ∧
        ∀ i : Nat, i < k → recorded (day - i) = true ∧ status (day - i) = true := by
  intro fuel
  induction fuel with
  | zero =>
    intro day acc _
    right
    exact ⟨0, by simp [currentScan], fun i hi => absurd hi (Nat.not_lt_zero i)⟩
  | succ n ih =>
    intro day acc hday
    by_cases hr : recorded day = true
    · by_cases hs : status day = true
      · by_cases hstop : stopAtFirst first? day = true
        · right
          refine ⟨1, by simp [currentScan, hr, hs, hstop], ?_⟩
          intro i hi
          have hi0 : i = 0 := by omega
          subst hi0
          simpa using ⟨hr, hs⟩
        · rcases ih (day - 1) (acc + 1) (by omega) with h0 | ⟨k, hk, hprops⟩
          · left; simp [currentScan, hr, hs, hstop, h0]
          · right
            refine ⟨k + 1, by simp [currentScan, hr, hs, hstop, hk]; omega, ?_⟩
            intro i hi
            cases i with
            | zero => simpa using ⟨hr, hs⟩
            | succ j =>
              have hj := hprops j (by omega)
              have harith : day - (↑(j + 1) : Int) = day - 1 - ↑j := by
                push_cast; ring
              rw [harith]
              exact hj
      · left; simp [currentScan, hr, hs]
    · right
      refine ⟨0, ?_, fun i hi => absurd hi (Nat.not_lt_zero i)⟩
      by_cases h1 : day < today
      · simp [currentScan, hr, h1]
      · have h2 : day = today := by omega
        subst h2
        simp [currentScan, hr, h1]

/-- C10: whenever `calculate_streak` returns normally, the longest streak is
at least the current streak — every day counted by the backward scan is a
recorded consecutive success day, and those days form a consecutive success
block that the longest-streak pass also counts. -/
theorem c10_longest_ge_current (entries : List Entry) (today : Int) (c l : Nat)
    (h : calculate_streak entries today = .ok (c, l)) : c ≤ l := by
  unfold calculate_streak at h
  split at h
  · injection h with h'; injection h' with hc hl; omega
  · split at h
    · cases h
    · rename_i pes heq
      split at h
      · injection h with h'; injection h' with hc hl; omega
      · injection h with h'
        have hc : currentScan (fun d => decide (d ∈ recordedDates pes))
            (dayStatus pes) (sortedDays pes).head? today 365 today 0 = c := by
          have := congrArg Prod.fst h'
          simpa [streaksOfParsed] using this
        have hl : longestPass (dayStatus pes) (sortedDays pes) = l := by
          have := congrArg Prod.snd h'
          simpa [streaksOfParsed] using this
        have hsorted : (sortedDays pes).Sorted (· < ·) := by
          have hs1 : (sortedDays pes).Sorted (· ≤ ·) :=
            List.sorted_insertionSort _ _
          have hnd : (sortedDays pes).Nodup :=
            ((List.perm_insertionSort _ _).nodup_iff).mpr (List.nodup_dedup _)
          exact hs1.lt_of_le hnd
        rcases currentScan_spec (fun d => decide (d ∈ recordedDates pes))
            (dayStatus pes) (sortedDays pes).head? today 365 today 0
            (le_refl today) with h0 | ⟨k, hk, hprops⟩
        · omega
        · rw [hc] at hk
          by_cases hk0 : k = 0
          · omega
          · have hblock : ∀ i : Nat, i < k →
                (today - ↑i) ∈ sortedDays pes ∧
                  dayStatus pes (today - ↑i) = true := by
              intro i hi
              have hp := hprops i hi
              refine ⟨?_, hp.2⟩
              have hmem : (today - ↑i) ∈ recordedDates pes :=
                of_decide_eq_true hp.1
              exact ((List.perm_insertionSort _ _).mem_iff).mpr
                (List.mem_dedup.mpr hmem)
            have hge := longestFold_ge (dayStatus pes) (sortedDays pes) hsorted
              today k (by omega) hblock (0, 0, none)
            rw [longestPass] at hl
            omega

/-- Witness for C10: a concrete normal return with streaks `(1, 1)`. -/
theorem c10_witness : (1 : Nat) ≤ 1 :=
  c10_longest_ge_current [⟨"2025-01-01", 1⟩] (toOrdinal 2025 1 1) 1 1 rfl

/-! ## Exact streak values on an unbroken success run (infrastructure for C6) -/

/-- When no entry records a failure, every date's status is success (the
`defaultdict` default). -/
theorem dayStatus_all_true (pes : List (Int × Int))
    (hsucc : ∀ q ∈ pes, q.2 ≠ 0) (d : Int) : dayStatus pes d = true := by
  have h : pes.any (fun q => decide (q.1 = d) && decide (q.2 = 0)) = false := by
    rw [List.any_eq_false]
    intro q hq
    simp [hsucc q hq]
  simp [dayStatus, h]

/-- Component bounds for one longest-pass iteration. -/
theorem longestStep_bounds (status : Int → Bool) (lo cl : Nat) (prev : Option Int)
    (x : Int) :
    (longestStep status (lo, cl, prev) x).1 ≤ max lo (cl + 1) ∧
      (longestStep status (lo, cl, prev) x).2.1 ≤ cl + 1 := by
  by_cases hs : status x = true
  · cases prev with
    | none =>
      have hv : longestStep status (lo, cl, none) x = (max lo 1, 1, some x) := by
        simp [longestStep, hs]
      rw [hv]
      exact ⟨max_le_max (le_refl lo) (by omega), Nat.le_add_left 1 cl⟩
    | some p =>
      by_cases hc : x - p = 1
      · have hv : longestStep status (lo, cl, some p) x =
            (max lo (cl + 1), cl + 1, some x) := by
          simp [longestStep, hs, hc]
        rw [hv]
        exact ⟨le_refl _, le_refl _⟩
      · have hv : longestStep status (lo, cl, some p) x = (max lo 1, 1, some x) := by
          simp [longestStep, hs, hc]
        rw [hv]
        exact ⟨max_le_max (le_refl lo) (by omega), Nat.le_add_left 1 cl⟩
  · have hv : longestStep status (lo, cl, prev) x = (lo, 0, some x) := by
      simp [longestStep, hs]
    rw [hv]
    exact ⟨le_max_left _ _, Nat.zero_le _⟩

/-- The longest streak found by the fold is bounded by the starting
accumulator and the number of remaining dates. -/
theorem longestFold_le (status : Int → Bool) :
    ∀ (l : List Int) (st : Nat × Nat × Option Int),
      (l.foldl (longestStep status) st).1 ≤ max st.1 (st.2.1 + l.length) := by
  intro l
  induction l with
  | nil =>
    intro st
    rw [List.foldl_nil]
    exact le_max_left _ _
  | cons x rest ih =>
    intro st
    obtain ⟨lo, cl, prev⟩ := st
    rw [List.foldl_cons]
    have hb := longestStep_bounds status lo cl prev x
    have h1 : max (longestStep status (lo, cl, prev) x).1
        ((longestStep status (lo, cl, prev) x).2.1 + rest.length) ≤
        max (max lo (cl + 1)) ((cl + 1) + rest.length) :=
      max_le_max hb.1 (by have := hb.2; omega)
    have hlen : (x :: rest).length = rest.length + 1 := List.length_cons x rest
    have h2 : max lo (cl + 1) ≤ max lo (cl + (x :: rest).length) :=
      max_le_max (le_refl lo) (by omega)
    have h3 : (cl + 1) + rest.length ≤ max lo (cl + (x :: rest).length) :=
      le_trans (by omega) (le_max_right lo (cl + (x :: rest).length))
    exact le_trans (ih (longestStep status (lo, cl, prev) x))
      (le_trans h1 (max_le h2 h3))

/-- The longest streak never exceeds the number of distinct recorded dates. -/
theorem longestPass_le_length (status : Int → Bool) (days : List Int) :
    longestPass status days ≤ days.length := by
  have h := longestFold_le status days (0, 0, none)
  have h3 : max (0 : Nat) (0 + days.length) = days.length := by
    rw [Nat.zero_add]
    exact max_eq_right (Nat.zero_le _)
  rw [h3] at h
  show (days.foldl (longestStep status) (0, 0, none)).1 ≤ days.length
  exact h

/-- The sorted distinct date list is strictly increasing. -/
theorem sortedDays_sorted_lt (pes : List (Int × Int)) :
    (sortedDays pes).Sorted (· < ·) := by
  have hs1 : (sortedDays pes).Sorted (· ≤ ·) := List.sorted_insertionSort _ _
  have hnd : (sortedDays pes).Nodup :=
    ((List.perm_insertionSort _ _).nodup_iff).mpr (List.nodup_dedup _)
  exact hs1.lt_of_le hnd

/-- On a recorded set that is exactly the `N` consecutive all-success days
`today - N + 1, …, today`, the backward scan starting inside the run counts
every remaining day down to the earliest recorded date and stops there. -/
theorem currentScan_run (recorded status : Int → Bool) (today : Int) (N : Nat)
    (hrec : ∀ d : Int, recorded d = true ↔ ∃ i : Nat, i < N ∧ d = today - i)
    (hstat : ∀ d, status d = true) :
    ∀ (r : Nat) (fuel : Nat) (acc : Nat) (d : Int),
      d = today - N + 1 + r → r < N → r < fuel →
      currentScan recorded status (some (today - N + 1)) today fuel d acc =
        acc + r + 1 := by
  intro r
  induction r with
  | zero =>
    intro fuel acc d hd hrN hrf
    obtain ⟨m, rfl⟩ : ∃ m, fuel = m + 1 := ⟨fuel - 1, by omega⟩
    have hr : recorded d = true := by
      rw [hrec]
      exact ⟨N - 1, by omega, by omega⟩
    have hstop : stopAtFirst (some (today - N + 1)) d = true := by
      simp only [stopAtFirst, decide_eq_true_eq]
      omega
    simp [currentScan, hr, hstat d, hstop]
  | succ r ihr =>
    intro fuel acc d hd hrN hrf
    obtain ⟨m, rfl⟩ : ∃ m, fuel = m + 1 := ⟨fuel - 1, by omega⟩
    have hr : recorded d = true := by
      rw [hrec]
      exact ⟨N - 2 - r, by omega, by omega⟩
    have hstop : stopAtFirst (some (today - N + 1)) d = false := by
      simp only [stopAtFirst]
      rw [decide_eq_false_iff_not]
      omega
    simp only [currentScan, hr, hstat d, hstop, if_true]
    rw [if_neg (by simp), ihr m (acc + 1) (d - 1) (by omega) (by omega) (by omega)]
    omega

/-- Normal-return shape of `calculate_streak` once parsing succeeded and the
date set is nonempty. -/
theorem calculate_streak_ok (entries : List Entry) (today : Int)
    (pes : List (Int × Int)) (hne : entries.isEmpty = false)
    (hp : parsedEntries entries = .ok pes)
    (hsne : (sortedDays pes).isEmpty = false) :
    calculate_streak entries today = .ok (streaksOfParsed pes today) := by
  unfold calculate_streak
  rw [hp]
  simp [hne, hsne]

/-- C6 (amended with the lookback cap): for every N with 1 ≤ N ≤ 365, if the
entries parse to exactly the N consecutive calendar days ending on `today`,
all successes, with no gaps, duplicates or other entries, then
`calculate_streak` returns `current_streak = longest_streak = N`.  (For
N > 365 the scan's 365-iteration cap makes the current streak fall short of
N — see the counterexample.) -/
theorem c6_consecutive_run (entries : List Entry) (N : Nat) (today : Int)
    (pes : List (Int × Int)) (hN : 1 ≤ N) (hcap : N ≤ 365)
    (hp : parsedEntries entries = .ok pes)
    (hdates : (recordedDates pes).Perm
      ((List.range N).map fun i : Nat => today - (i : Int)))
    (hsucc : ∀ q ∈ pes, q.2 ≠ 0) :
    calculate_streak entries today = .ok (N, N) := by
  have hmemiff : ∀ d : Int, d ∈ recordedDates pes ↔
      ∃ i : Nat, i < N ∧ d = today - i := by
    intro d
    rw [hdates.mem_iff]
    simp only [List.mem_map, List.mem_range]
    constructor
    · rintro ⟨i, hi, h⟩; exact ⟨i, hi, h.symm⟩
    · rintro ⟨i, hi, h⟩; exact ⟨i, hi, h.symm⟩
  have htoday : (today : Int) ∈ recordedDates pes :=
    (hmemiff today).mpr ⟨0, by omega, by simp⟩
  have hrdne : recordedDates pes ≠ [] := by
    intro hnil; rw [hnil] at htoday; cases htoday
  have hentries_ne : entries.isEmpty = false := by
    cases hent : entries with
    | nil =>
      subst hent
      simp only [parsedEntries] at hp
      injection hp with h
      rw [← h] at hrdne
      exact absurd rfl hrdne
    | cons a l => rfl
  have hinj : Function.Injective (fun i : Nat => today - (i : Int)) := by
    intro a b hab
    simp only at hab
    omega
  have hnodup : (recordedDates pes).Nodup :=
    hdates.nodup_iff.mpr (List.Nodup.map hinj (List.nodup_range N))
  have hdedup : (recordedDates pes).dedup = recordedDates pes :=
    List.dedup_eq_self.mpr hnodup
  have hlen : (recordedDates pes).length = N := by
    rw [hdates.length_eq]
    simp
  have hsdperm : (sortedDays pes).Perm (recordedDates pes) := by
    rw [sortedDays, hdedup]
    exact List.perm_insertionSort _ _
  have hsdmem : ∀ d : Int, d ∈ sortedDays pes ↔
      ∃ i : Nat, i < N ∧ d = today - i := by
    intro d
    rw [hsdperm.mem_iff]
    exact hmemiff d
  have hsdlen : (sortedDays pes).length = N := by rw [hsdperm.length_eq, hlen]
  have hsdne : sortedDays pes ≠ [] := by
    intro h
    rw [h] at hsdlen
    simp at hsdlen
    omega
  have hhead : (sortedDays pes).head? = some (today - N + 1) := by
    obtain ⟨h, t, hht⟩ : ∃ h t, sortedDays pes = h :: t := by
      cases hsd : sortedDays pes with
      | nil => exact absurd hsd hsdne
      | cons h t => exact ⟨h, t, rfl⟩
    have hsorted : (sortedDays pes).Sorted (· ≤ ·) := List.sorted_insertionSort _ _
    have hhmem : h ∈ sortedDays pes := by rw [hht]; exact List.mem_cons_self _ _
    obtain ⟨i, hi, hhi⟩ := (hsdmem h).mp hhmem
    have hfmem : (today - N + 1) ∈ sortedDays pes := by
      rw [hsdmem]
      exact ⟨N - 1, by omega, by omega⟩
    have hle : h ≤ today - N + 1 := by
      rw [hht] at hfmem hsorted
      rcases List.mem_cons.mp hfmem with hh | hh
      · omega
      · exact List.rel_of_sorted_cons hsorted _ hh
    have hhval : h = today - N + 1 := by omega
    rw [hht, hhval]
    rfl
  have hstatus := dayStatus_all_true pes hsucc
  have hrec : ∀ d : Int,
      (fun d => decide (d ∈ recordedDates pes)) d = true ↔
        ∃ i : Nat, i < N ∧ d = today - i := by
    intro d
    simp only [decide_eq_true_eq]
    exact hmemiff d
  have hcur : currentScan (fun d => decide (d ∈ recordedDates pes))
      (dayStatus pes) (some (today - N + 1)) today 365 today 0 = N := by
    have h := currentScan_run (fun d => decide (d ∈ recordedDates pes))
      (dayStatus pes) today N hrec hstatus (N - 1) 365 0 today (by omega)
      (by omega) (by omega)
    rw [h]
    omega
  have hlong_ge : N ≤ longestPass (dayStatus pes) (sortedDays pes) := by
    have hblock : ∀ i : Nat, i < N → (today - ↑i) ∈ sortedDays pes ∧
        dayStatus pes (today - ↑i) = true := by
      intro i hi
      exact ⟨(hsdmem _).mpr ⟨i, hi, rfl⟩, hstatus _⟩
    have h := longestFold_ge (dayStatus pes) (sortedDays pes)
      (sortedDays_sorted_lt pes) today N hN hblock (0, 0, none)
    show N ≤ ((sortedDays pes).foldl (longestStep (dayStatus pes)) (0, 0, none)).1
    exact h
  have hlong_le : longestPass (dayStatus pes) (sortedDays pes) ≤ N := by
    have h := longestPass_le_length (dayStatus pes) (sortedDays pes)
    omega
  have hsne : (sortedDays pes).isEmpty = false := by
    cases hsd : sortedDays pes with
    | nil => exact absurd hsd hsdne
    | cons a l => rfl
  rw [calculate_streak_ok entries today pes hentries_ne hp hsne]
  simp only [streaksOfParsed, hhead, Except.ok.injEq, Prod.mk.injEq]
  exact ⟨hcur, by omega⟩

/-- Witness for C6: a two-day success run on 2025-01-01 and 2025-01-02 with
today = 2025-01-02 yields streaks `(2, 2)`. -/
theorem c6_witness :
    calculate_streak [⟨"2025-01-02", 1⟩, ⟨"2025-01-01", 1⟩] (toOrdinal 2025 1 2) =
      .ok (2, 2) := by
  refine c6_consecutive_run [⟨"2025-01-02", 1⟩, ⟨"2025-01-01", 1⟩] 2
    (toOrdinal 2025 1 2) [(toOrdinal 2025 1 2, 1), (toOrdinal 2025 1 1, 1)]
    (by omega) (by omega) rfl ?_ ?_
  · have he : recordedDates [(toOrdinal 2025 1 2, 1), (toOrdinal 2025 1 1, 1)] =
        ((List.range 2).map fun i : Nat => toOrdinal 2025 1 2 - (i : Int)) := by
      decide
    rw [he]
  · intro q hq
    rcases List.mem_cons.mp hq with h | h
    · rw [h]; decide
    · rcases List.mem_cons.mp h with h2 | h2
      · rw [h2]; decide
      · cases h2

set_option maxRecDepth 1000000 in
/-- C6 (counterexample): the claim as stated quantifies over every N ≥ 1, but
for N = 366 — an unbroken success run from 2024-01-02 through 2025-01-01 with
today = 2025-01-01 — the scan's 365-iteration cap prevents
`calculate_streak` from returning a current streak of 366. -/
theorem c6_counterexample :
    (∃ pes, parsedEntries entries366 = .ok pes ∧
        (recordedDates pes).Perm
          ((List.range 366).map fun i : Nat => toOrdinal 2025 1 1 - (i : Int)) ∧
        ∀ q ∈ pes, q.2 ≠ 0) ∧
      calculate_streak entries366 (toOrdinal 2025 1 1) ≠ .ok (366, 366) := by
  constructor
  · refine ⟨pes366, by rfl, ?_, ?_⟩
    · have hrev : ((List.range 366).map fun i : Nat => toOrdinal 2025 1 1 - (i : Int)) =
          (recordedDates pes366).reverse := by rfl
      rw [hrev]
      exact (List.reverse_perm _).symm
    · decide
  · intro hcontra
    have hle := calculate_streak_current_le365 entries366 (toOrdinal 2025 1 1)
      366 366 hcontra
    omega
